import Mathlib

/-!
Shallow embedding of the exoware simulator server (`src/simulator/src/server/`):
the KV handlers (`store/handlers.rs`), the shared store entry and error types
(`store/mod.rs`), the ADB overlay handlers (`store/adb.rs`), the auth middleware
(`auth.rs`) and the stream handlers (`stream/handlers.rs`).

Modelling conventions:
- Rust byte slices / `Vec<u8>` / `String` payloads are `List Nat` of byte values
  (a Rust `String` is its UTF-8 byte sequence; `String::len` is its byte length,
  and Rust `String` comparison is byte-wise lexicographic, so both are faithful).
- The RocksDB instance is a association list sorted by byte-wise lexicographic
  key order; `db.get`, `db.put` and forward iteration from a start key are
  `dbGet`, `dbPut` and `List.dropWhile`.
- `bincode` (de)serialization of the on-disk record (`StoredValue` in
  handlers.rs, the identical `Entry` in store/mod.rs) is modelled structurally:
  the database maps keys to decoded records, since every stored value is
  written through the same record type and bincode round-trips. The *nested*
  bincode encoding of the ADB `Value { value, position }` record inside an
  entry's byte value is modelled explicitly (bincode 1.x legacy config:
  fixed-width little-endian integers, `Vec` length as u64).
- Wall-clock reads (`SystemTime::now()`) and the random delay drawn by
  `thread_rng().gen_range(min..=max)` are passed as explicit arguments; the
  range contract of `gen_range` becomes a hypothesis.
-/

namespace Exoware

/-- Byte sequences (Rust `Vec<u8>` / `&[u8]` / UTF-8 contents of `String`). -/
abbrev Bytes := List Nat

/-- Byte-wise lexicographic strict order: RocksDB key order, which is also Rust
`&[u8]`/`String` ordering. -/
def lexLt : Bytes → Bytes → Bool
  | [], [] => false
  | [], _ :: _ => true
  | _ :: _, [] => false
  | a :: as, b :: bs => if a < b then true else if b < a then false else lexLt as bs

/-- The uniform on-disk record. `StoredValue` in store/handlers.rs and `Entry`
in store/mod.rs are the same record (same fields, same order, same widths):
`value: Vec<u8>`, `visible_at: u128` (ms), `updated_at: u64` (s). -/
structure StoredValue where
  value : Bytes
  visible_at : Nat
  updated_at : Nat
deriving Repr, DecidableEq

/-- The RocksDB instance: an association list of (raw key, decoded record)
kept sorted by `lexLt` on keys (RocksDB iterates keys in this order). -/
abbrev DB := List (Bytes × StoredValue)

/-- `db.get(key)`. -/
def dbGet (db : DB) (key : Bytes) : Option StoredValue :=
  (db.find? (fun e => e.1 == key)).map (·.2)

/-- `db.put(key, value)`: sorted insert, overwriting an existing key. -/
def dbPut : DB → Bytes → StoredValue → DB
  | [], k, v => [(k, v)]
  | (k', v') :: rest, k, v =>
    if lexLt k k' then (k, v) :: (k', v') :: rest
    else if lexLt k' k then (k', v') :: dbPut rest k v
    else (k, v) :: rest

/-! ### Standard base64 with padding (`base64::engine::general_purpose::STANDARD`) -/

/-- ASCII code of the `n`-th character of the standard base64 alphabet. -/
def b64Char (n : Nat) : Nat :=
  if n < 26 then 65 + n
  else if n < 52 then 97 + (n - 26)
  else if n < 62 then 48 + (n - 52)
  else if n = 62 then 43
  else 47

/-- Inverse of the standard base64 alphabet; `none` for a byte outside it. -/
def b64Index (c : Nat) : Option Nat :=
  if 65 ≤ c ∧ c ≤ 90 then some (c - 65)
  else if 97 ≤ c ∧ c ≤ 122 then some (26 + (c - 97))
  else if 48 ≤ c ∧ c ≤ 57 then some (52 + (c - 48))
  else if c = 43 then some 62
  else if c = 47 then some 63
  else none

/-- Standard base64 encoding with padding, three input bytes per four output
characters (61 is the ASCII code of the pad character). -/
def b64Encode : Bytes → Bytes
  | [] => []
  | [a] => [b64Char (a / 4), b64Char (a % 4 * 16), 61, 61]
  | [a, b] => [b64Char (a / 4), b64Char (a % 4 * 16 + b / 16), b64Char (b % 16 * 4), 61]
  | a :: b :: c :: rest =>
    b64Char (a / 4) :: b64Char (a % 4 * 16 + b / 16) :: b64Char (b % 16 * 4 + c / 64)
      :: b64Char (c % 64) :: b64Encode rest

/-- Standard base64 decoding: requires canonical padding to a multiple of four
characters and rejects set trailing bits, as the `STANDARD` engine does. -/
def b64Decode : Bytes → Option Bytes
  | [] => some []
  | c1 :: c2 :: c3 :: c4 :: rest =>
    match b64Index c1, b64Index c2 with
    | some i1, some i2 =>
      if c3 = 61 then
        if c4 = 61 ∧ rest = [] ∧ i2 % 16 = 0 then some [i1 * 4 + i2 / 16] else none
      else
        match b64Index c3 with
        | some i3 =>
          if c4 = 61 then
            if rest = [] ∧ i3 % 4 = 0 then some [i1 * 4 + i2 / 16, i2 % 16 * 16 + i3 / 4]
            else none
          else
            match b64Index c4, b64Decode rest with
            | some i4, some ds =>
              some ((i1 * 4 + i2 / 16) :: (i2 % 16 * 16 + i3 / 4) :: (i3 % 4 * 64 + i4) :: ds)
            | _, _ => none
        | none => none
    | _, _ => none
  | _ => none

/-- Whether a byte sequence is accepted by the base64 decoder. -/
def isValidBase64 (bs : Bytes) : Bool := (b64Decode bs).isSome

/-! ### UTF-8 validity (what `String::from_utf8` accepts) -/

/-- A UTF-8 continuation byte. -/
def isCont (b : Nat) : Bool := 0x80 ≤ b && b ≤ 0xBF

/-- Strict UTF-8 validity of a byte sequence, exactly the sequences accepted by
Rust's `String::from_utf8` (no overlong forms, no surrogates, max U+10FFFF). -/
def isValidUtf8 : Bytes → Bool
  | [] => true
  | b :: rest =>
    if b ≤ 0x7F then isValidUtf8 rest
    else if 0xC2 ≤ b && b ≤ 0xDF then
      match rest with
      | b1 :: r => isCont b1 && isValidUtf8 r
      | [] => false
    else if b = 0xE0 then
      match rest with
      | b1 :: b2 :: r => (0xA0 ≤ b1 && b1 ≤ 0xBF) && isCont b2 && isValidUtf8 r
      | _ => false
    else if (0xE1 ≤ b && b ≤ 0xEC) || (0xEE ≤ b && b ≤ 0xEF) then
      match rest with
      | b1 :: b2 :: r => isCont b1 && isCont b2 && isValidUtf8 r
      | _ => false
    else if b = 0xED then
      match rest with
      | b1 :: b2 :: r => (0x80 ≤ b1 && b1 ≤ 0x9F) && isCont b2 && isValidUtf8 r
      | _ => false
    else if b = 0xF0 then
      match rest with
      | b1 :: b2 :: b3 :: r => (0x90 ≤ b1 && b1 ≤ 0xBF) && isCont b2 && isCont b3 && isValidUtf8 r
      | _ => false
    else if 0xF1 ≤ b && b ≤ 0xF3 then
      match rest with
      | b1 :: b2 :: b3 :: r => isCont b1 && isCont b2 && isCont b3 && isValidUtf8 r
      | _ => false
    else if b = 0xF4 then
      match rest with
      | b1 :: b2 :: b3 :: r => (0x80 ≤ b1 && b1 ≤ 0x8F) && isCont b2 && isCont b3 && isValidUtf8 r
      | _ => false
    else false

/-! ### KV handlers (`src/simulator/src/server/store/handlers.rs`) -/

/-- `MAX_KEY_SIZE` (handlers.rs). -/
def MAX_KEY_SIZE : Nat := 512

/-- `MAX_VALUE_SIZE` (handlers.rs): 20 MiB. -/
def MAX_VALUE_SIZE : Nat := 20 * 1024 * 1024

/-- `MAX_REQUEST_BODY_SIZE` (server/mod.rs): the 21 MiB `RequestBodyLimitLayer`
bound applied to every request before any handler runs. -/
def MAX_REQUEST_BODY_SIZE : Nat := 21 * 1024 * 1024

/-- `usize::MAX` (64-bit target), the default for the `limit` query parameter. -/
def USIZE_MAX : Nat := 2 ^ 64 - 1

/-- `2^64`, the modulus of `u64` arithmetic. -/
def U64_MOD : Nat := 2 ^ 64

/-- Wrapping `u64` subtraction `a - b`, as `now_secs - stored_value.updated_at`
evaluates in a release build (a debug build would panic on underflow). -/
def wrapSub64 (a b : Nat) : Nat := (a % U64_MOD + (U64_MOD - b % U64_MOD)) % U64_MOD

/-- `enum AppError` of handlers.rs (`DbError`/`Bincode` are unreachable in this
model: the database holds only records written through `StoredValue`). -/
inductive AppError
  | KeyTooLarge
  | ValueTooLarge
  | UpdateRateExceeded
  | NotFound
  | DbError
  | Bincode
deriving Repr, DecidableEq

/-- The status mapping of `impl IntoResponse for AppError` (handlers.rs). -/
def appErrorStatus : AppError → Nat
  | .KeyTooLarge => 413
  | .ValueTooLarge => 413
  | .UpdateRateExceeded => 429
  | .NotFound => 404
  | .DbError => 500
  | .Bincode => 500

/-- The `consistency_bound_min`/`consistency_bound_max` fields of the store
state (milliseconds). -/
structure KvConfig where
  consistency_bound_min : Nat
  consistency_bound_max : Nat
deriving Repr, DecidableEq

/-- The rate-limit test of `set`: an entry exists at the key and
`now_secs - entry.updated_at < 1` (unsigned). Reads only `updated_at`, never
`visible_at`, so a still-invisible entry also blocks. -/
def rateLimited (db : DB) (key : Bytes) (nowSecs : Nat) : Bool :=
  match dbGet db key with
  | some stored => wrapSub64 nowSecs stored.updated_at < 1
  | none => false

/-- `set` (handlers.rs): the `{key}` path parameter is used as the raw store
key (its UTF-8 bytes; there is no base64 decoding step). `randDelay` is the
value `thread_rng().gen_range(min..=max)` would return; it is only consulted
when `consistency_bound_max > 0`. Returns the handler result and the database
afterwards. -/
def kvSet (cfg : KvConfig) (db : DB) (key value : Bytes) (nowMillis randDelay : Nat) :
    Except AppError Unit × DB :=
  if key.length > MAX_KEY_SIZE then (.error .KeyTooLarge, db)
  else if value.length > MAX_VALUE_SIZE then (.error .ValueTooLarge, db)
  else
    let nowSecs := nowMillis / 1000 % U64_MOD
    if rateLimited db key nowSecs then (.error .UpdateRateExceeded, db)
    else
      let delay := if 0 < cfg.consistency_bound_max then randDelay else 0
      (.ok (), dbPut db key { value := value, visible_at := nowMillis + delay, updated_at := nowSecs })

/-- `get` (handlers.rs): returns the stored value base64-encoded (the JSON
envelope's `value` field) when the entry exists and `visible_at <= now`;
`NotFound` both when the key is absent and when it is not yet visible. -/
def kvGet (db : DB) (key : Bytes) (nowMillis : Nat) : Except AppError Bytes :=
  match dbGet db key with
  | some stored =>
    if stored.visible_at ≤ nowMillis then .ok (b64Encode stored.value)
    else .error .NotFound
  | none => .error .NotFound

/-- One emitted item of `query`: the raw key (the bytes of the `String` built
by `String::from_utf8(key).unwrap()`) and the base64-encoded value. -/
structure QueryItem where
  key : Bytes
  value : Bytes
deriving Repr, DecidableEq

/-- Outcome of the `query` handler: a result list, or the panic of
`String::from_utf8(key.into_vec()).unwrap()` on a non-UTF-8 raw key. -/
inductive QueryOutcome
  | ok (results : List QueryItem)
  | panicked
deriving Repr, DecidableEq

/-- The `for item in iter` loop of `query` (handlers.rs): stop when `limit`
results are accumulated; skip entries with `visible_at > now`; for a visible
entry build the key string (panicking on invalid UTF-8), stop if `end` is
supplied and the key is `>=` it, otherwise emit. -/
def kvQueryLoop (nowMillis limit : Nat) (endKey : Option Bytes) :
    List (Bytes × StoredValue) → List QueryItem → QueryOutcome
  | [], acc => .ok acc.reverse
  | (k, sv) :: rest, acc =>
    if limit ≤ acc.length then .ok acc.reverse
    else if sv.visible_at ≤ nowMillis then
      if isValidUtf8 k then
        match endKey with
        | some e =>
          if lexLt k e then
            kvQueryLoop nowMillis limit endKey rest ({ key := k, value := b64Encode sv.value } :: acc)
          else .ok acc.reverse
        | none =>
          kvQueryLoop nowMillis limit endKey rest ({ key := k, value := b64Encode sv.value } :: acc)
      else .panicked
    else kvQueryLoop nowMillis limit endKey rest acc

/-- The iterator start of `query`: `IteratorMode::From(start, Forward)` places
the RocksDB iterator on the first key `>= start`; `IteratorMode::Start` on the
least key. -/
def queryTail (db : DB) (start : Option Bytes) : List (Bytes × StoredValue) :=
  match start with
  | some s => db.dropWhile (fun e => lexLt e.1 s)
  | none => db

/-- `query` (handlers.rs): `start`/`end` are the raw bytes of the query-string
parameters (used undecoded), `limit` defaults to `usize::MAX`. -/
def kvQuery (db : DB) (nowMillis : Nat) (start endKey : Option Bytes) (limit : Option Nat) :
    QueryOutcome :=
  kvQueryLoop nowMillis (limit.getD USIZE_MAX) endKey (queryTail db start) []

/-- Whether an entry key lies below the `end` bound (`true` when no bound). -/
def belowEnd (endKey : Option Bytes) (k : Bytes) : Bool :=
  match endKey with
  | some e => lexLt k e
  | none => true

/-- Specification-level description of `query`: of the entries from the first
key `>= start` on, keep the visible ones below `end`, truncate to `limit`, and
emit raw key plus base64 value. -/
def kvQuerySpec (db : DB) (nowMillis : Nat) (start endKey : Option Bytes) (limit : Nat) :
    List QueryItem :=
  (((queryTail db start).filter
      (fun e => decide (e.2.visible_at ≤ nowMillis) && belowEnd endKey e.1)).take limit).map
    (fun e => { key := e.1, value := b64Encode e.2.value })

/-- Sortedness of the modelled RocksDB contents. -/
def SortedDB (db : DB) : Prop := List.Pairwise (fun a b => lexLt a.1 b.1 = true) db

instance : DecidablePred SortedDB := fun db =>
  inferInstanceAs (Decidable (List.Pairwise _ db))

/-! ### ADB overlay (`src/simulator/src/server/store/adb.rs`, `store/mod.rs`) -/

/-- The constant store/mod.rs names `KEY_NAMESPACE_PREFIX`. -/
def KEY_NAMESPACE_BYTE : Nat := 0x00

/-- The constant store/mod.rs names `POS_NAMESPACE_PREFIX`. -/
def POS_NAMESPACE_BYTE : Nat := 0x01

/-- `enum Error` of store/mod.rs (shared by the ADB handlers). The `String`
payloads of `InvalidParameter`/`InvalidBody` are dropped; `MissingData` and
`Internal` carry the node index their message reports; `Db`/`Bincode` are
unreachable in this model. -/
inductive StoreError
  | KeyTooLarge
  | ValueTooLarge
  | UpdateRateExceeded
  | NotFound
  | InvalidParameter
  | InvalidBody
  | Internal (nodeIndex : Nat)
  | MissingData (nodeIndex : Nat)
  | Db
  | Bincode
deriving Repr, DecidableEq

/-- The status mapping of `impl IntoResponse for Error` (store/mod.rs). -/
def storeErrorStatus : StoreError → Nat
  | .KeyTooLarge => 413
  | .ValueTooLarge => 413
  | .UpdateRateExceeded => 429
  | .NotFound => 404
  | .InvalidParameter => 400
  | .InvalidBody => 400
  | .Internal _ => 500
  | .MissingData _ => 500
  | .Db => 500
  | .Bincode => 500

/-- 8-byte big-endian encoding of a `u64` (`position.to_be_bytes()`). -/
def be8 (n : Nat) : Bytes :=
  [n / 2 ^ 56 % 256, n / 2 ^ 48 % 256, n / 2 ^ 40 % 256, n / 2 ^ 32 % 256,
   n / 2 ^ 24 % 256, n / 2 ^ 16 % 256, n / 2 ^ 8 % 256, n % 256]

/-- 8-byte little-endian encoding of a `u64` (bincode fixed-width integer). -/
def u64le (n : Nat) : Bytes :=
  [n % 256, n / 2 ^ 8 % 256, n / 2 ^ 16 % 256, n / 2 ^ 24 % 256,
   n / 2 ^ 32 % 256, n / 2 ^ 40 % 256, n / 2 ^ 48 % 256, n / 2 ^ 56 % 256]

/-- `struct Value` of adb.rs: an adb key's value and its MMR position. -/
structure AdbValue where
  value : Bytes
  position : Nat
deriving Repr, DecidableEq

/-- `Value::serialize` (bincode 1.x legacy config): u64 little-endian length
prefix, the value bytes, then the u64 little-endian position. -/
def adbValueSerialize (v : AdbValue) : Bytes :=
  u64le v.value.length ++ v.value ++ u64le v.position

/-- Read a little-endian `u64` off the front of a byte sequence. -/
def readU64le : Bytes → Option (Nat × Bytes)
  | b0 :: b1 :: b2 :: b3 :: b4 :: b5 :: b6 :: b7 :: rest =>
    some (b0 + b1 * 2 ^ 8 + b2 * 2 ^ 16 + b3 * 2 ^ 24 + b4 * 2 ^ 32 + b5 * 2 ^ 40
      + b6 * 2 ^ 48 + b7 * 2 ^ 56, rest)
  | _ => none

/-- `Value::deserialize` (bincode): length-prefixed value bytes, then the
position. Trailing bytes are ignored, as by bincode's legacy config. -/
def adbValueDeserialize (bs : Bytes) : Option AdbValue :=
  match readU64le bs with
  | some (n, rest) =>
    if n ≤ rest.length then
      match readU64le (rest.drop n) with
      | some (p, _) => some { value := rest.take n, position := p }
      | none => none
    else none
  | none => none

/-- `Entry::new` (store/mod.rs): `visible_at = 0`, `updated_at = now_secs`.
ADB writes go through this constructor, so they are immediately visible. -/
def entryNew (value : Bytes) (nowMillis : Nat) : StoredValue :=
  { value := value, visible_at := 0, updated_at := nowMillis / 1000 % U64_MOD }

/-- `set_key` (adb.rs): decode the base64 `key` query parameter (else
`InvalidParameter`), serialize `{ value, position }`, and write it under
`[KEY_NAMESPACE_BYTE | key]` through `Entry::new`. There is no key-size,
value-size or rate-limit check. -/
def adbSetKey (db : DB) (keyB64 : Bytes) (position : Nat) (value : Bytes) (nowMillis : Nat) :
    Except StoreError Unit × DB :=
  match b64Decode keyB64 with
  | none => (.error .InvalidParameter, db)
  | some k =>
    let v : AdbValue := { value := value, position := position }
    (.ok (), dbPut db (KEY_NAMESPACE_BYTE :: k) (entryNew (adbValueSerialize v) nowMillis))

/-- `set_node_digest` (adb.rs): the body must be exactly 32 bytes (else
`InvalidBody`); writes under `[POS_NAMESPACE_BYTE | position_u64_be]`. -/
def adbSetNodeDigest (db : DB) (position : Nat) (value : Bytes) (nowMillis : Nat) :
    Except StoreError Unit × DB :=
  if value.length ≠ 32 then (.error .InvalidBody, db)
  else (.ok (), dbPut db (POS_NAMESPACE_BYTE :: be8 position) (entryNew value nowMillis))

/-- The proof-node loop of `get` (adb.rs): for each required index in order,
load `[POS_NAMESPACE_BYTE | index_u64_be]`; `MissingData` if absent,
`Internal` if the stored digest is not exactly 32 bytes; otherwise append the
digest to the proof data. -/
def adbGetLoop (db : DB) : List Nat → Except StoreError Bytes
  | [] => .ok []
  | i :: rest =>
    match dbGet db (POS_NAMESPACE_BYTE :: be8 i) with
    | none => .error (.MissingData i)
    | some entry =>
      if entry.value.length ≠ 32 then .error (.Internal i)
      else
        match adbGetLoop db rest with
        | .ok tail => .ok (entry.value ++ tail)
        | .error err => .error err

/-- The result payload of `get` (adb.rs / `adb::GetResultPayload`). -/
structure AdbGetResult where
  value : Bytes
  position : Nat
  proof_data : Bytes
deriving Repr, DecidableEq

/-- `get` (adb.rs). `nodesRequired size pos` stands for
`Proof::<Sha256Digest>::nodes_required_for_range_proof(size, pos, pos)` from
the external commonware-storage MMR library (not part of this repository); the
handler is verified for every such function. -/
def adbGet (nodesRequired : Nat → Nat → List Nat) (db : DB) (keyB64 : Bytes) (size : Nat) :
    Except StoreError AdbGetResult :=
  match b64Decode keyB64 with
  | none => .error .InvalidParameter
  | some k =>
    match dbGet db (KEY_NAMESPACE_BYTE :: k) with
    | none => .error .NotFound
    | some entry =>
      match adbValueDeserialize entry.value with
      | none => .error .Bincode
      | some v =>
        match adbGetLoop db (nodesRequired size v.position) with
        | .ok pd => .ok { value := v.value, position := v.position, proof_data := pd }
        | .error e => .error e

/-- The digest bytes stored for a node index (for stating the proof-data
concatenation; meaningful when the index is present). -/
def digestAt (db : DB) (i : Nat) : Bytes :=
  match dbGet db (POS_NAMESPACE_BYTE :: be8 i) with
  | some entry => entry.value
  | none => []

/-- A node index whose digest is present and exactly 32 bytes long. -/
def goodDigest (db : DB) (i : Nat) : Bool :=
  match dbGet db (POS_NAMESPACE_BYTE :: be8 i) with
  | some entry => entry.value.length == 32
  | none => false

/-- Concatenation of the stored digests of a list of node indices, in order. -/
def concatDigests (db : DB) : List Nat → Bytes
  | [] => []
  | i :: rest => digestAt db i ++ concatDigests db rest

/-! ### Auth middleware (`auth.rs`) and stream handlers (`stream/handlers.rs`) -/

/-- Whether an `Authorization` header value grants access for token `tok`:
`strip_prefix("Bearer ")` succeeds and the remainder equals the token. -/
def bearerOk (tok : String) (h : String) : Bool :=
  h.startsWith "Bearer " && (h.drop 7 == tok)

/-- First query-string parameter with the given name (URL-decoded), as
`form_urlencoded::parse(..).find(..)` produces it. -/
def findParam (params : List (String × String)) (name : String) : Option String :=
  (params.find? (fun p => p.1 == name)).map (·.2)

/-- `auth::middleware`: admitted iff the `Authorization: Bearer` header equals
the token, or (otherwise) the first `token` query parameter equals it, or
`allow_public_access` is set and the method is GET. A header whose bytes are
not valid ASCII (`to_str` failure) behaves like a non-matching header and is
modelled as one. -/
def authMiddlewareAdmits (tok : String) (allowPublic : Bool) (methodIsGet : Bool)
    (authHeader : Option String) (queryParams : List (String × String)) : Bool :=
  let headerAuthorized :=
    match authHeader with
    | some h => bearerOk tok h
    | none => false
  let authorized :=
    if headerAuthorized then true
    else
      match findParam queryParams "token" with
      | some t => t == tok
      | none => false
  authorized || (allowPublic && methodIsGet)

/-- The `subscribe` handler's own authentication check (stream/handlers.rs):
public access admits; otherwise an `Authorization` header, if present, must be
a matching bearer (a present-but-wrong header is final); only when no header is
present is the `auth_token` query parameter compared. -/
def subscribeAdmits (tok : String) (allowPublic : Bool) (authHeader : Option String)
    (authTokenParam : Option String) : Bool :=
  if allowPublic then true
  else
    match authHeader with
    | some h => bearerOk tok h
    | none =>
      match authTokenParam with
      | some t => t == tok
      | none => false

/-- Response of `GET /stream/{name}`: the stream router's auth middleware runs
first, then the `subscribe` handler re-checks credentials itself (reading the
`auth_token` query parameter, not `token`); only if both pass does the
WebSocket upgrade (101) proceed, otherwise 401. -/
def streamSubscribeStatus (tok : String) (allowPublic : Bool) (authHeader : Option String)
    (queryParams : List (String × String)) : Nat :=
  if authMiddlewareAdmits tok allowPublic true authHeader queryParams then
    if subscribeAdmits tok allowPublic authHeader (findParam queryParams "auth_token") then 101
    else 401
  else 401

/-- `MAX_MESSAGE_SIZE` (stream/handlers.rs): 20 MiB. -/
def MAX_MESSAGE_SIZE : Nat := 20 * 1024 * 1024

/-- `publish` (stream/handlers.rs): reject only an oversized body with 413;
otherwise 200 — creating the channel when the topic has none, and ignoring the
send error when there are no subscribers. The topic name's length is never
examined. Returns the status and the topic registry afterwards. -/
def publishResponse (streams : List Bytes) (name body : Bytes) : Nat × List Bytes :=
  if body.length > MAX_MESSAGE_SIZE then (413, streams)
  else (200, if streams.contains name then streams else streams ++ [name])

/-! ### Supporting lemmas and claim theorems -/

theorem lexLt_irrefl (a : Bytes) : lexLt a a = false := by
  induction a with
  | nil => rfl
  | cons x xs ih => simp [lexLt, ih]

theorem lexLt_trans : ∀ {a b c : Bytes}, lexLt a b = true → lexLt b c = true → lexLt a c = true
  | [], [], _, h, _ => by simp [lexLt] at h
  | [], _ :: _, [], _, h => by simp [lexLt] at h
  | [], _ :: _, _ :: _, _, _ => by simp [lexLt]
  | _ :: _, [], _, h, _ => by simp [lexLt] at h
  | _ :: _, _ :: _, [], _, h => by simp [lexLt] at h
  | a :: as, b :: bs, c :: cs, h1, h2 => by
    simp only [lexLt] at h1 h2 ⊢
    split at h1
    · rename_i hab
      split at h2
      · rename_i hbc
        simp [Nat.lt_trans hab hbc]
      · split at h2
        · simp at h2
        · rename_i hcb hbc
          have : b = c := by omega
          subst this
          simp [hab]
    · split at h1
      · simp at h1
      · rename_i hba hab
        have hab' : a = b := by omega
        subst hab'
        split at h2
        · rename_i hac
          simp [hac]
        · split at h2
          · simp at h2
          · rename_i hca hac
            have : a = c := by omega
            subst this
            simp only [Nat.lt_irrefl, if_false]
            exact lexLt_trans h1 h2

theorem lexLt_total_eq : ∀ {a b : Bytes}, lexLt a b = false → lexLt b a = false → a = b
  | [], [], _, _ => rfl
  | [], _ :: _, h, _ => by simp [lexLt] at h
  | _ :: _, [], _, h => by simp [lexLt] at h
  | a :: as, b :: bs, h1, h2 => by
    simp only [lexLt] at h1 h2
    by_cases hab : a < b
    · simp [hab] at h1
    · by_cases hba : b < a
      · simp [hba] at h2
      · have : a = b := by omega
        subst this
        simp only [Nat.lt_irrefl, if_false] at h1 h2
        rw [lexLt_total_eq h1 h2]

theorem lexLt_asymm {a b : Bytes} (h : lexLt a b = true) : lexLt b a = false := by
  by_contra hc
  have hba : lexLt b a = true := by
    cases hb : lexLt b a with
    | true => rfl
    | false => exact absurd hb hc
  have := lexLt_trans h hba
  rw [lexLt_irrefl] at this
  exact Bool.noConfusion this

theorem dbGet_dbPut_self (db : DB) (k : Bytes) (v : StoredValue) :
    dbGet (dbPut db k v) k = some v := by
  induction db with
  | nil => simp [dbPut, dbGet, List.find?]
  | cons e rest ih =>
    obtain ⟨k', v'⟩ := e
    simp only [dbPut]
    split
    · simp [dbGet, List.find?]
    · split
      · rename_i hk'k
        have hne : (k' == k) = false := by
          simp only [beq_eq_false_iff_ne, ne_eq]
          intro h
          subst h
          rw [lexLt_irrefl] at hk'k
          exact Bool.noConfusion hk'k
        simpa [dbGet, List.find?, hne] using ih
      · simp [dbGet, List.find?]

theorem dbGet_dbPut_ne (db : DB) (k k2 : Bytes) (v : StoredValue) (h : k2 ≠ k) :
    dbGet (dbPut db k v) k2 = dbGet db k2 := by
  have hkk2 : (k == k2) = false := by
    simp only [beq_eq_false_iff_ne, ne_eq]
    exact fun hk => h hk.symm
  induction db with
  | nil => simp [dbPut, dbGet, List.find?, hkk2]
  | cons e rest ih =>
    obtain ⟨k', v'⟩ := e
    simp only [dbPut]
    split
    · simp [dbGet, List.find?, hkk2]
    · split
      · by_cases hk' : (k' == k2) = true
        · simp [dbGet, List.find?, hk']
        · have hk'f : (k' == k2) = false := by
            cases hb : (k' == k2) with
            | true => exact absurd hb hk'
            | false => rfl
          simp only [dbGet, List.find?, hk'f]
          exact ih
      · rename_i h1 h2
        have hk'eq : k = k' := lexLt_total_eq (by cases hb : lexLt k k' with
            | true => exact absurd hb (by simpa using h1)
            | false => rfl)
          (by cases hb : lexLt k' k with
            | true => exact absurd hb (by simpa using h2)
            | false => rfl)
        subst hk'eq
        simp [dbGet, List.find?, hkk2]

theorem b64Index_b64Char : ∀ n < 64, b64Index (b64Char n) = some n := by decide

theorem b64Char_ne_pad : ∀ n < 64, b64Char n ≠ 61 := by decide

theorem b64_roundtrip : ∀ (bs : Bytes), (∀ b ∈ bs, b < 256) → b64Decode (b64Encode bs) = some bs
  | [], _ => rfl
  | [a], h => by
    have ha : a < 256 := h a (by simp)
    have h1 : a / 4 < 64 := by omega
    have h2 : a % 4 * 16 < 64 := by omega
    have e1 : a / 4 * 4 + a % 4 * 16 / 16 = a := by omega
    simp only [b64Encode, b64Decode, b64Index_b64Char _ h1, b64Index_b64Char _ h2]
    rw [if_pos trivial, if_pos ⟨trivial, trivial, by omega⟩, e1]
  | [a, b], h => by
    have ha : a < 256 := h a (by simp)
    have hb : b < 256 := h b (by simp)
    have h1 : a / 4 < 64 := by omega
    have h2 : a % 4 * 16 + b / 16 < 64 := by omega
    have h3 : b % 16 * 4 < 64 := by omega
    have e1 : a / 4 * 4 + (a % 4 * 16 + b / 16) / 16 = a := by omega
    have e2 : (a % 4 * 16 + b / 16) % 16 * 16 + b % 16 * 4 / 4 = b := by omega
    simp only [b64Encode, b64Decode, b64Index_b64Char _ h1, b64Index_b64Char _ h2,
      b64Index_b64Char _ h3]
    rw [if_neg (b64Char_ne_pad _ h3), if_pos trivial, if_pos ⟨trivial, by omega⟩, e1, e2]
  | a :: b :: c :: rest, h => by
    have ha : a < 256 := h a (by simp)
    have hb : b < 256 := h b (by simp)
    have hc : c < 256 := h c (by simp)
    have h1 : a / 4 < 64 := by omega
    have h2 : a % 4 * 16 + b / 16 < 64 := by omega
    have h3 : b % 16 * 4 + c / 64 < 64 := by omega
    have h4 : c % 64 < 64 := by omega
    have ih := b64_roundtrip rest (fun x hx => h x (by simp [hx]))
    have e1 : a / 4 * 4 + (a % 4 * 16 + b / 16) / 16 = a := by omega
    have e2 : (a % 4 * 16 + b / 16) % 16 * 16 + (b % 16 * 4 + c / 64) / 4 = b := by omega
    have e3 : (b % 16 * 4 + c / 64) % 4 * 64 + c % 64 = c := by omega
    simp only [b64Encode, b64Decode, b64Index_b64Char _ h1, b64Index_b64Char _ h2,
      b64Index_b64Char _ h3, b64Index_b64Char _ h4]
    rw [if_neg (b64Char_ne_pad _ h3), if_neg (b64Char_ne_pad _ h4), ih]
    simp only [Option.some.injEq, List.cons.injEq]
    exact ⟨e1, e2, e3, trivial⟩

theorem kvQueryLoop_eq (nowMillis limit : Nat) (endKey : Option Bytes) :
    ∀ (l : List (Bytes × StoredValue)) (acc : List QueryItem),
      List.Pairwise (fun a b => lexLt a.1 b.1 = true) l →
      (∀ e ∈ l, e.2.visible_at ≤ nowMillis → isValidUtf8 e.1 = true) →
      kvQueryLoop nowMillis limit endKey l acc =
        .ok (acc.reverse ++
          ((l.filter
              (fun e => decide (e.2.visible_at ≤ nowMillis) && belowEnd endKey e.1)).take
            (limit - acc.length)).map
            (fun e => { key := e.1, value := b64Encode e.2.value }))
  | [], acc, _, _ => by simp [kvQueryLoop]
  | (k, sv) :: rest, acc, hsort, hutf8 => by
    have hsrest : List.Pairwise (fun a b => lexLt a.1 b.1 = true) rest :=
      (List.pairwise_cons.mp hsort).2
    have hhead : ∀ e ∈ rest, lexLt k e.1 = true := by
      intro e he
      exact (List.pairwise_cons.mp hsort).1 e he
    have hurest : ∀ e ∈ rest, e.2.visible_at ≤ nowMillis → isValidUtf8 e.1 = true := by
      intro e he
      exact hutf8 e (by simp [he])
    by_cases hlim : limit ≤ acc.length
    · simp [kvQueryLoop, hlim, Nat.sub_eq_zero_of_le hlim]
    · by_cases hvis : sv.visible_at ≤ nowMillis
      · have hk : isValidUtf8 k = true := hutf8 (k, sv) (by simp) hvis
        have hsub : limit - acc.length = (limit - (acc.length + 1)) + 1 := by omega
        cases endKey with
        | none =>
          have ih := kvQueryLoop_eq nowMillis limit none rest
            ({ key := k, value := b64Encode sv.value } :: acc) hsrest hurest
          simp only [kvQueryLoop, if_neg hlim, if_pos hvis, hk, if_true, ih]
          simp [belowEnd, hvis, hsub, List.filter_cons]
        | some e =>
          by_cases hlt : lexLt k e = true
          · have ih := kvQueryLoop_eq nowMillis limit (some e) rest
              ({ key := k, value := b64Encode sv.value } :: acc) hsrest hurest
            simp only [kvQueryLoop, if_neg hlim, if_pos hvis, hk, if_true, hlt, ih]
            simp [belowEnd, hvis, hlt, hsub, List.filter_cons]
          · have hltf : lexLt k e = false := by
              cases hb : lexLt k e with
              | true => exact absurd hb hlt
              | false => rfl
            have hnone : ∀ x ∈ (k, sv) :: rest,
                (decide (x.2.visible_at ≤ nowMillis) && belowEnd (some e) x.1) = false := by
              intro x hx
              rcases List.mem_cons.mp hx with h | h
              · subst h
                simp [belowEnd, hltf]
              · have hke : lexLt x.1 e = false := by
                  cases hb : lexLt x.1 e with
                  | false => rfl
                  | true =>
                    have := lexLt_trans (hhead x h) hb
                    rw [hltf] at this
                    exact Bool.noConfusion this
                simp [belowEnd, hke]
            have hfil :
                ((k, sv) :: rest).filter
                  (fun x => decide (x.2.visible_at ≤ nowMillis) && belowEnd (some e) x.1) = [] := by
              rw [List.filter_eq_nil_iff]
              intro a ha
              simp [hnone a ha]
            simp [kvQueryLoop, hlim, hvis, hk, hltf, hfil]
      · have ih := kvQueryLoop_eq nowMillis limit endKey rest acc hsrest hurest
        simp only [kvQueryLoop, if_neg hlim, if_neg hvis, ih]
        simp [List.filter_cons, hvis]

/-- The `query` handler refines the take/filter/dropWhile description, provided
the database is sorted and every stored key is valid UTF-8 (otherwise the
handler can panic, see the digest-key theorem below). -/
theorem kvQuery_eq (db : DB) (nowMillis : Nat) (start endKey : Option Bytes)
    (limit : Option Nat) (hsort : SortedDB db)
    (hutf8 : ∀ e ∈ db, isValidUtf8 e.1 = true) :
    kvQuery db nowMillis start endKey limit =
      .ok (kvQuerySpec db nowMillis start endKey (limit.getD USIZE_MAX)) := by
  have hsub : List.Sublist (queryTail db start) db := by
    cases start with
    | none => simp [queryTail]
    | some s => exact (List.dropWhile_suffix _).sublist
  have hsort' : List.Pairwise (fun a b => lexLt a.1 b.1 = true) (queryTail db start) :=
    hsort.sublist hsub
  have hutf8' : ∀ e ∈ queryTail db start, e.2.visible_at ≤ nowMillis → isValidUtf8 e.1 = true :=
    fun e he _ => hutf8 e (hsub.subset he)
  have h := kvQueryLoop_eq nowMillis (limit.getD USIZE_MAX) endKey (queryTail db start) []
    hsort' hutf8'
  simpa [kvQuery, kvQuerySpec] using h

/-- In a sorted database, every entry at or past the iterator start position
has a key `>= start`. -/
theorem mem_dropWhile_not_lexLt (s : Bytes) :
    ∀ (db : DB), List.Pairwise (fun a b => lexLt a.1 b.1 = true) db →
      ∀ e ∈ db.dropWhile (fun x => lexLt x.1 s), lexLt e.1 s = false
  | [], _, e, he => by simp [List.dropWhile] at he
  | x :: rest, hsort, e, he => by
    by_cases hx : lexLt x.1 s = true
    · rw [List.dropWhile_cons_of_pos (by simpa using hx)] at he
      exact mem_dropWhile_not_lexLt s rest (List.pairwise_cons.mp hsort).2 e he
    · have hxf : lexLt x.1 s = false := by
        cases hb : lexLt x.1 s with
        | true => exact absurd hb hx
        | false => rfl
      rw [List.dropWhile_cons_of_neg (by simp [hxf])] at he
      rcases List.mem_cons.mp he with h | h
      · subst h
        exact hxf
      · cases hb : lexLt e.1 s with
        | false => rfl
        | true =>
          have hxe := (List.pairwise_cons.mp hsort).1 e h
          have := lexLt_trans hxe hb
          rw [hxf] at this
          exact Bool.noConfusion this

/-- An element that fails the predicate is never removed by `dropWhile`. -/
theorem mem_dropWhile_of_pred_false {α : Type} (p : α → Bool) :
    ∀ (l : List α) (e : α), e ∈ l → p e = false → e ∈ l.dropWhile p
  | [], e, he, _ => by simp at he
  | x :: rest, e, he, hpe => by
    by_cases hx : p x = true
    · rw [List.dropWhile_cons_of_pos hx]
      rcases List.mem_cons.mp he with h | h
      · subst h
        rw [hpe] at hx
        exact Bool.noConfusion hx
      · exact mem_dropWhile_of_pred_false p rest e h hpe
    · rw [List.dropWhile_cons_of_neg hx]
      exact he

theorem readU64le_u64le (n : Nat) (tail : Bytes) (h : n < U64_MOD) :
    readU64le (u64le n ++ tail) = some (n, tail) := by
  simp only [u64le, List.cons_append, List.nil_append, readU64le, Option.some.injEq,
    Prod.mk.injEq]
  refine ⟨?_, trivial⟩
  simp only [U64_MOD] at h
  omega

theorem adbValue_roundtrip (v : AdbValue) (hlen : v.value.length < U64_MOD)
    (hpos : v.position < U64_MOD) :
    adbValueDeserialize (adbValueSerialize v) = some v := by
  have h1 : readU64le (u64le v.value.length ++ (v.value ++ u64le v.position)) =
      some (v.value.length, v.value ++ u64le v.position) := readU64le_u64le _ _ hlen
  have hle : v.value.length ≤ (v.value ++ u64le v.position).length := by
    simp [u64le]
  have hdrop : (v.value ++ u64le v.position).drop v.value.length = u64le v.position :=
    List.drop_left _ _
  have htake : (v.value ++ u64le v.position).take v.value.length = v.value :=
    List.take_left _ _
  have h2 : readU64le (u64le v.position ++ ([] : Bytes)) = some (v.position, []) :=
    readU64le_u64le _ _ hpos
  rw [List.append_nil] at h2
  simp only [adbValueDeserialize, adbValueSerialize, List.append_assoc, h1, if_pos hle,
    hdrop, h2, htake]

theorem adbGetLoop_all_good (db : DB) :
    ∀ idxs : List Nat, (∀ i ∈ idxs, goodDigest db i = true) →
      adbGetLoop db idxs = .ok (concatDigests db idxs)
  | [], _ => rfl
  | i :: rest, h => by
    have hi := h i (by simp)
    cases heq : dbGet db (POS_NAMESPACE_BYTE :: be8 i) with
    | none => rw [goodDigest, heq] at hi; exact Bool.noConfusion hi
    | some entry =>
      rw [goodDigest, heq] at hi
      have hlen : entry.value.length = 32 := by simpa using hi
      have ih := adbGetLoop_all_good db rest (fun j hj => h j (by simp [hj]))
      simp [adbGetLoop, heq, hlen, ih, concatDigests, digestAt]

theorem concatDigests_length (db : DB) :
    ∀ idxs : List Nat, (∀ i ∈ idxs, goodDigest db i = true) →
      (concatDigests db idxs).length = 32 * idxs.length
  | [], _ => rfl
  | i :: rest, h => by
    have hi := h i (by simp)
    cases heq : dbGet db (POS_NAMESPACE_BYTE :: be8 i) with
    | none => rw [goodDigest, heq] at hi; exact Bool.noConfusion hi
    | some entry =>
      rw [goodDigest, heq] at hi
      have hlen : entry.value.length = 32 := by simpa using hi
      have ih := concatDigests_length db rest (fun j hj => h j (by simp [hj]))
      simp only [concatDigests, List.length_append, List.length_cons, ih, digestAt, heq, hlen]
      ring

theorem adbGetLoop_first_bad (db : DB) :
    ∀ (pre : List Nat) (i : Nat) (post : List Nat), (∀ j ∈ pre, goodDigest db j = true) →
      (dbGet db (POS_NAMESPACE_BYTE :: be8 i) = none →
        adbGetLoop db (pre ++ i :: post) = .error (.MissingData i))
      ∧ (∀ d, dbGet db (POS_NAMESPACE_BYTE :: be8 i) = some d → d.value.length ≠ 32 →
        adbGetLoop db (pre ++ i :: post) = .error (.Internal i))
  | [], i, post, _ => by
    constructor
    · intro hnone
      simp [adbGetLoop, hnone]
    · intro d hd hlen
      simp [adbGetLoop, hd, hlen]
  | j :: pre, i, post, h => by
    have hj := h j (by simp)
    cases heq : dbGet db (POS_NAMESPACE_BYTE :: be8 j) with
    | none => rw [goodDigest, heq] at hj; exact Bool.noConfusion hj
    | some entry =>
      rw [goodDigest, heq] at hj
      have hlen : entry.value.length = 32 := by simpa using hj
      have ih := adbGetLoop_first_bad db pre i post (fun x hx => h x (by simp [hx]))
      constructor
      · intro hnone
        simp [adbGetLoop, heq, hlen, ih.1 hnone]
      · intro d hd hdlen
        simp [adbGetLoop, heq, hlen, ih.2 d hd hdlen]

theorem kvSet_ok (cfg : KvConfig) (db : DB) (key value : Bytes) (nowMillis randDelay : Nat)
    (hk : key.length ≤ MAX_KEY_SIZE) (hv : value.length ≤ MAX_VALUE_SIZE)
    (hrl : rateLimited db key (nowMillis / 1000 % U64_MOD) = false) :
    kvSet cfg db key value nowMillis randDelay =
      (.ok (), dbPut db key
        { value := value,
          visible_at := nowMillis + (if 0 < cfg.consistency_bound_max then randDelay else 0),
          updated_at := nowMillis / 1000 % U64_MOD }) := by
  rw [kvSet, if_neg (by omega), if_neg (by omega)]
  simp only [hrl, Bool.false_eq_true, if_false]

/-- Claim C1 (confirmed). Invisibility window: a successful `set(k, v)` stores
an entry whose `visible_at` is `write_time + t` for a delay `t` in
`[bound_min, bound_max]` when `bound_max > 0` and `t = 0` otherwise; `get(k)`
answers `NotFound` (mapped to 404) at every read time strictly before
`write_time + t` and the base64-encoded `v` at every read time `>= write_time
+ t`, absent a later write to `k`; an absent key gives the same `NotFound`, so
absent and not-yet-visible keys are indistinguishable. -/
theorem kv_invisibility_window (cfg : KvConfig) (db : DB) (key value : Bytes)
    (nowMillis randDelay : Nat)
    (hk : key.length ≤ MAX_KEY_SIZE) (hv : value.length ≤ MAX_VALUE_SIZE)
    (hrl : rateLimited db key (nowMillis / 1000 % U64_MOD) = false)
    (hrand : 0 < cfg.consistency_bound_max →
      cfg.consistency_bound_min ≤ randDelay ∧ randDelay ≤ cfg.consistency_bound_max) :
    ∃ t : Nat,
      (0 < cfg.consistency_bound_max →
        cfg.consistency_bound_min ≤ t ∧ t ≤ cfg.consistency_bound_max)
      ∧ (cfg.consistency_bound_max = 0 → t = 0)
      ∧ ∃ db', kvSet cfg db key value nowMillis randDelay = (.ok (), db')
          ∧ dbGet db' key = some { value := value, visible_at := nowMillis + t,
                                   updated_at := nowMillis / 1000 % U64_MOD }
          ∧ (∀ rt, rt < nowMillis + t → kvGet db' key rt = .error .NotFound)
          ∧ (∀ rt, nowMillis + t ≤ rt → kvGet db' key rt = .ok (b64Encode value))
          ∧ (∀ k2 rt, dbGet db' k2 = none → kvGet db' k2 rt = .error .NotFound)
          ∧ appErrorStatus .NotFound = 404 := by
  have hset := kvSet_ok cfg db key value nowMillis randDelay hk hv hrl
  refine ⟨if 0 < cfg.consistency_bound_max then randDelay else 0, ?_, ?_,
    _, hset, ?_, ?_, ?_, ?_, rfl⟩
  · intro h
    rw [if_pos h]
    exact hrand h
  · intro h
    rw [if_neg (by omega)]
  · exact dbGet_dbPut_self db key _
  · intro rt hrt
    rw [kvGet, dbGet_dbPut_self db key _]
    simp only [if_neg (by omega : ¬(nowMillis +
      (if 0 < cfg.consistency_bound_max then randDelay else 0) ≤ rt))]
  · intro rt hrt
    rw [kvGet, dbGet_dbPut_self db key _]
    simp only [if_pos hrt]
  · intro k2 rt h
    rw [kvGet, h]

/-- Witness for C1: a concrete successful write with `bound_min = 2`,
`bound_max = 3` and drawn delay 2. -/
theorem kv_invisibility_window_witness :
    rateLimited [] [107] (1000 / 1000 % U64_MOD) = false
    ∧ ∃ t : Nat, (0 < (3 : Nat) → 2 ≤ t ∧ t ≤ 3) ∧ ((3 : Nat) = 0 → t = 0)
      ∧ ∃ db', kvSet { consistency_bound_min := 2, consistency_bound_max := 3 } [] [107] [118]
            1000 2 = (.ok (), db')
        ∧ dbGet db' [107] = some { value := [118], visible_at := 1000 + t,
                                   updated_at := 1000 / 1000 % U64_MOD }
        ∧ (∀ rt, rt < 1000 + t → kvGet db' [107] rt = .error .NotFound)
        ∧ (∀ rt, 1000 + t ≤ rt → kvGet db' [107] rt = .ok (b64Encode [118]))
        ∧ (∀ k2 rt, dbGet db' k2 = none → kvGet db' k2 rt = .error .NotFound)
        ∧ appErrorStatus .NotFound = 404 :=
  ⟨rfl, kv_invisibility_window { consistency_bound_min := 2, consistency_bound_max := 3 }
    [] [107] [118] 1000 2 (by decide) (by decide) rfl (fun _ => by decide)⟩

/-- Claim C2 (confirmed). Write-rate limiter: for a size-valid request, `set`
fails with `UpdateRateExceeded` (429) exactly when an entry already exists at
the key and the unsigned difference `now_s - entry.updated_at` is less than 1
(so a zero-second delta also fails); the condition reads only `updated_at`,
never `visible_at`, so a still-invisible entry also blocks; on this failure
the database is unchanged. -/
theorem kv_set_rate_limit_iff (cfg : KvConfig) (db : DB) (key value : Bytes)
    (nowMillis randDelay : Nat)
    (hk : key.length ≤ MAX_KEY_SIZE) (hv : value.length ≤ MAX_VALUE_SIZE) :
    ((kvSet cfg db key value nowMillis randDelay).1 = .error .UpdateRateExceeded ↔
      ∃ e, dbGet db key = some e ∧ wrapSub64 (nowMillis / 1000 % U64_MOD) e.updated_at < 1)
    ∧ ((kvSet cfg db key value nowMillis randDelay).1 = .error .UpdateRateExceeded →
        (kvSet cfg db key value nowMillis randDelay).2 = db)
    ∧ appErrorStatus .UpdateRateExceeded = 429 := by
  have hchar : rateLimited db key (nowMillis / 1000 % U64_MOD) = true ↔
      ∃ e, dbGet db key = some e ∧ wrapSub64 (nowMillis / 1000 % U64_MOD) e.updated_at < 1 := by
    cases heq : dbGet db key with
    | none => simp [rateLimited, heq]
    | some e => simp [rateLimited, heq]
  rw [kvSet, if_neg (by omega), if_neg (by omega)]
  by_cases hb : rateLimited db key (nowMillis / 1000 % U64_MOD) = true
  · rw [if_pos hb]
    exact ⟨iff_of_true rfl (hchar.mp hb), fun _ => rfl, rfl⟩
  · rw [if_neg hb]
    exact ⟨iff_of_false (by simp) (fun hr => hb (hchar.mpr hr)),
      fun h => absurd h (by simp), rfl⟩

/-- Witness for C2: a zero-second delta against a still-invisible entry: the
entry was written at second 1 with `visible_at = 5000`, the second write comes
at 1999 ms (same second, entry still invisible) and fails with 429, leaving
the database unchanged. -/
theorem kv_set_rate_limit_iff_witness :
    (kvSet { consistency_bound_min := 0, consistency_bound_max := 0 }
      [([107], { value := [118], visible_at := 5000, updated_at := 1 })] [107] [120] 1999 0).1 =
        .error .UpdateRateExceeded
    ∧ (kvSet { consistency_bound_min := 0, consistency_bound_max := 0 }
      [([107], { value := [118], visible_at := 5000, updated_at := 1 })] [107] [120] 1999 0).2 =
        [([107], { value := [118], visible_at := 5000, updated_at := 1 })] := by
  have h := kv_set_rate_limit_iff { consistency_bound_min := 0, consistency_bound_max := 0 }
    [([107], { value := [118], visible_at := 5000, updated_at := 1 })] [107] [120] 1999 0
    (by decide) (by decide)
  have h1 := h.1.mpr ⟨{ value := [118], visible_at := 5000, updated_at := 1 }, rfl, by decide⟩
  exact ⟨h1, h.2.1 h1⟩

/-- Claim C3 (corrected), counterexample: the `set` handler never base64
decodes its `{key}` path parameter and its error enum has no 400-mapped
variant at all; the invalid-base64 key string "!!!" is accepted and the write
succeeds instead of failing with `InvalidParameter`. -/
theorem kv_set_invalid_base64_key_accepted :
    isValidBase64 [33, 33, 33] = false
    ∧ (kvSet { consistency_bound_min := 0, consistency_bound_max := 0 }
        [] [33, 33, 33] [] 7 0).1 = .ok ()
    ∧ appErrorStatus .KeyTooLarge ≠ 400 ∧ appErrorStatus .ValueTooLarge ≠ 400
    ∧ appErrorStatus .UpdateRateExceeded ≠ 400 ∧ appErrorStatus .NotFound ≠ 400
    ∧ appErrorStatus .DbError ≠ 400 ∧ appErrorStatus .Bincode ≠ 400 := by
  exact ⟨rfl, rfl, by decide, by decide, by decide, by decide, by decide, by decide⟩

/-- Claim C3 (corrected), amended: `set` validates the raw path-parameter key
without any base64 decoding: it first fails with `KeyTooLarge` when the key's
byte length exceeds 512, then with `ValueTooLarge` when the body exceeds
20 MiB, and only then proceeds to the rate-limit check and the write. -/
theorem kv_set_validation_order (cfg : KvConfig) (db : DB) (key value : Bytes)
    (nowMillis randDelay : Nat) :
    (MAX_KEY_SIZE < key.length →
      kvSet cfg db key value nowMillis randDelay = (.error .KeyTooLarge, db))
    ∧ (key.length ≤ MAX_KEY_SIZE → MAX_VALUE_SIZE < value.length →
      kvSet cfg db key value nowMillis randDelay = (.error .ValueTooLarge, db))
    ∧ (key.length ≤ MAX_KEY_SIZE → value.length ≤ MAX_VALUE_SIZE →
      kvSet cfg db key value nowMillis randDelay =
        (if rateLimited db key (nowMillis / 1000 % U64_MOD) then
          (.error .UpdateRateExceeded, db)
        else (.ok (), dbPut db key
          { value := value,
            visible_at := nowMillis + (if 0 < cfg.consistency_bound_max then randDelay else 0),
            updated_at := nowMillis / 1000 % U64_MOD })))
    ∧ appErrorStatus .KeyTooLarge = 413 ∧ appErrorStatus .ValueTooLarge = 413 := by
  refine ⟨?_, ?_, ?_, rfl, rfl⟩
  · intro h
    rw [kvSet, if_pos (by omega)]
  · intro hk h
    rw [kvSet, if_neg (by omega), if_pos (by omega)]
  · intro hk hv
    rw [kvSet, if_neg (by omega), if_neg (by omega)]

/-- Witness for C3's amended theorem: a 513-byte key is rejected with
`KeyTooLarge` before anything else is examined; a size-valid request reaches
the rate-limit stage. -/
theorem kv_set_validation_order_witness :
    kvSet { consistency_bound_min := 0, consistency_bound_max := 0 }
        [] (List.replicate 513 97) [] 7 0 = (.error .KeyTooLarge, [])
    ∧ kvSet { consistency_bound_min := 0, consistency_bound_max := 0 } [] [107] [118] 7 0 =
        (if rateLimited [] [107] (7 / 1000 % U64_MOD) then (.error .UpdateRateExceeded, [])
         else (.ok (), dbPut [] [107]
           { value := [118],
             visible_at := 7 + (if 0 < (0 : Nat) then 0 else 0),
             updated_at := 7 / 1000 % U64_MOD })) :=
  ⟨(kv_set_validation_order { consistency_bound_min := 0, consistency_bound_max := 0 }
      [] (List.replicate 513 97) [] 7 0).1 (by rw [List.length_replicate]; decide),
   (kv_set_validation_order { consistency_bound_min := 0, consistency_bound_max := 0 }
      [] [107] [118] 7 0).2.2.1 (by decide) (by decide)⟩

/-- Claim C4 (confirmed). Range query contract, for a sorted database whose
keys are valid UTF-8: the handler returns exactly the take/filter/dropWhile
description; at most `limit` entries are emitted (unbounded — `usize::MAX` —
when absent); results are in strictly ascending key order; every result comes
from a visible stored entry with key `>= start` and byte-wise below `end`; and
every entry with `visible_at > now` is skipped silently without terminating
iteration — any visible in-range entry is still emitted. -/
theorem kv_query_contract (db : DB) (nowMillis : Nat) (start endKey : Option Bytes)
    (limit : Option Nat) (hsort : SortedDB db)
    (hutf8 : ∀ e ∈ db, isValidUtf8 e.1 = true) :
    kvQuery db nowMillis start endKey limit =
        .ok (kvQuerySpec db nowMillis start endKey (limit.getD USIZE_MAX))
    ∧ (kvQuerySpec db nowMillis start endKey (limit.getD USIZE_MAX)).length ≤ limit.getD USIZE_MAX
    ∧ List.Pairwise (fun a b => lexLt a b = true)
        ((kvQuerySpec db nowMillis start endKey (limit.getD USIZE_MAX)).map QueryItem.key)
    ∧ (∀ it ∈ kvQuerySpec db nowMillis start endKey (limit.getD USIZE_MAX),
        ∃ sv, (it.key, sv) ∈ db ∧ sv.visible_at ≤ nowMillis ∧ it.value = b64Encode sv.value
          ∧ (∀ s, start = some s → lexLt it.key s = false)
          ∧ belowEnd endKey it.key = true)
    ∧ (limit = none → db.length ≤ USIZE_MAX →
        ∀ e ∈ db, e.2.visible_at ≤ nowMillis →
          (∀ s, start = some s → lexLt e.1 s = false) → belowEnd endKey e.1 = true →
          ({ key := e.1, value := b64Encode e.2.value } : QueryItem) ∈
            kvQuerySpec db nowMillis start endKey (limit.getD USIZE_MAX)) := by
  have hsubtail : List.Sublist (queryTail db start) db := by
    cases start with
    | none => simp [queryTail]
    | some s => exact (List.dropWhile_suffix _).sublist
  have hfiltsub : List.Sublist
      ((queryTail db start).filter
        (fun e => decide (e.2.visible_at ≤ nowMillis) && belowEnd endKey e.1))
      (queryTail db start) := List.filter_sublist _
  have htakesub : List.Sublist
      (((queryTail db start).filter
        (fun e => decide (e.2.visible_at ≤ nowMillis) && belowEnd endKey e.1)).take
          (limit.getD USIZE_MAX))
      ((queryTail db start).filter
        (fun e => decide (e.2.visible_at ≤ nowMillis) && belowEnd endKey e.1)) :=
    List.take_sublist _ _
  refine ⟨kvQuery_eq db nowMillis start endKey limit hsort hutf8, ?_, ?_, ?_, ?_⟩
  · simp only [kvQuerySpec, List.length_map]
    exact le_trans (List.length_take_le _ _) (le_refl _)
  · have hp : List.Pairwise (fun a b => lexLt a.1 b.1 = true)
        (((queryTail db start).filter
          (fun e => decide (e.2.visible_at ≤ nowMillis) && belowEnd endKey e.1)).take
            (limit.getD USIZE_MAX)) :=
      ((hsort.sublist hsubtail).sublist hfiltsub).sublist htakesub
    simp only [kvQuerySpec, List.map_map]
    exact (List.pairwise_map.mpr hp)
  · intro it hit
    simp only [kvQuerySpec, List.mem_map] at hit
    obtain ⟨e, he, rfl⟩ := hit
    have hef : e ∈ (queryTail db start).filter
        (fun x => decide (x.2.visible_at ≤ nowMillis) && belowEnd endKey x.1) :=
      htakesub.subset he
    have hetail : e ∈ queryTail db start := (List.mem_filter.mp hef).1
    have hP := (List.mem_filter.mp hef).2
    have hvis : e.2.visible_at ≤ nowMillis := by
      have := (Bool.and_eq_true _ _).mp hP
      exact of_decide_eq_true this.1
    have hend : belowEnd endKey e.1 = true := ((Bool.and_eq_true _ _).mp hP).2
    refine ⟨e.2, ?_, hvis, rfl, ?_, hend⟩
    · have : e ∈ db := hsubtail.subset hetail
      simpa using this
    · intro s hs
      subst hs
      exact mem_dropWhile_not_lexLt s db hsort e hetail
  · intro hlim hlen e he hvis hstart hend
    have hP : (decide (e.2.visible_at ≤ nowMillis) && belowEnd endKey e.1) = true := by
      simp [hvis, hend]
    have hetail : e ∈ queryTail db start := by
      cases hst : start with
      | none => simpa [queryTail] using he
      | some s =>
        simp only [queryTail]
        exact mem_dropWhile_of_pred_false _ db e he (hstart s hst)
    have hefilt : e ∈ (queryTail db start).filter
        (fun x => decide (x.2.visible_at ≤ nowMillis) && belowEnd endKey x.1) :=
      List.mem_filter.mpr ⟨hetail, hP⟩
    have hflen : ((queryTail db start).filter
        (fun x => decide (x.2.visible_at ≤ nowMillis) && belowEnd endKey x.1)).length ≤
          limit.getD USIZE_MAX := by
      subst hlim
      simp only [Option.getD]
      exact le_trans (hfiltsub.length_le) (le_trans hsubtail.length_le hlen)
    have htake_all : ((queryTail db start).filter
        (fun x => decide (x.2.visible_at ≤ nowMillis) && belowEnd endKey x.1)).take
          (limit.getD USIZE_MAX) =
        (queryTail db start).filter
          (fun x => decide (x.2.visible_at ≤ nowMillis) && belowEnd endKey x.1) :=
      List.take_of_length_le hflen
    simp only [kvQuerySpec, htake_all, List.mem_map]
    exact ⟨e, hefilt, rfl⟩

/-- Witness for C4: a three-entry database where the middle entry is still
invisible at read time 0; querying `[ [97], [99] )` returns exactly the first
entry. -/
theorem kv_query_contract_witness :
    SortedDB [([97], { value := [49], visible_at := 0, updated_at := 0 }),
      ([98], { value := [50], visible_at := 100, updated_at := 0 }),
      ([99], { value := [51], visible_at := 0, updated_at := 0 })]
    ∧ kvQuery [([97], { value := [49], visible_at := 0, updated_at := 0 }),
        ([98], { value := [50], visible_at := 100, updated_at := 0 }),
        ([99], { value := [51], visible_at := 0, updated_at := 0 })]
        0 (some [97]) (some [99]) none =
      .ok (kvQuerySpec [([97], { value := [49], visible_at := 0, updated_at := 0 }),
        ([98], { value := [50], visible_at := 100, updated_at := 0 }),
        ([99], { value := [51], visible_at := 0, updated_at := 0 })]
        0 (some [97]) (some [99]) ((none : Option Nat).getD USIZE_MAX)) :=
  ⟨by decide,
   (kv_query_contract [([97], { value := [49], visible_at := 0, updated_at := 0 }),
      ([98], { value := [50], visible_at := 100, updated_at := 0 }),
      ([99], { value := [51], visible_at := 0, updated_at := 0 })]
      0 (some [97]) (some [99]) none (by decide) (by decide)).1⟩

/-- Claim C5 (confirmed). ADB `get(key, size)`: an absent key-namespace entry
yields `NotFound` (404); otherwise, with the required MMR node indices for the
stored position, the call walks them in order and fails with `MissingData`
(500) at the first absent digest, fails as `Internal` (500) at the first
stored digest that is not exactly 32 bytes, and when all digests are present
and 32 bytes returns `{ value, position, proof_data }` with `proof_data` the
concatenation of the digests in index order. Stated for every required-nodes
function, so in particular for the MMR library's. -/
theorem adb_get_contract (nodesRequired : Nat → Nat → List Nat) (db : DB) (keyB64 k : Bytes)
    (size : Nat) (hdec : b64Decode keyB64 = some k) :
    (dbGet db (KEY_NAMESPACE_BYTE :: k) = none →
      adbGet nodesRequired db keyB64 size = .error .NotFound
        ∧ storeErrorStatus .NotFound = 404)
    ∧ (∀ entry v, dbGet db (KEY_NAMESPACE_BYTE :: k) = some entry →
        adbValueDeserialize entry.value = some v →
        ((∀ i ∈ nodesRequired size v.position, goodDigest db i = true) →
          adbGet nodesRequired db keyB64 size =
            .ok { value := v.value, position := v.position,
                  proof_data := concatDigests db (nodesRequired size v.position) })
        ∧ (∀ pre i post, nodesRequired size v.position = pre ++ i :: post →
            (∀ j ∈ pre, goodDigest db j = true) →
            ((dbGet db (POS_NAMESPACE_BYTE :: be8 i) = none →
              adbGet nodesRequired db keyB64 size = .error (.MissingData i)
                ∧ storeErrorStatus (.MissingData i) = 500)
            ∧ (∀ d, dbGet db (POS_NAMESPACE_BYTE :: be8 i) = some d → d.value.length ≠ 32 →
              adbGet nodesRequired db keyB64 size = .error (.Internal i)
                ∧ storeErrorStatus (.Internal i) = 500)))) := by
  constructor
  · intro hnone
    refine ⟨?_, rfl⟩
    rw [adbGet, hdec]
    simp only [hnone]
  · intro entry v hentry hval
    constructor
    · intro hgood
      rw [adbGet, hdec]
      simp only [hentry, hval, adbGetLoop_all_good db _ hgood]
    · intro pre i post hsplit hpre
      have hbad := adbGetLoop_first_bad db pre i post hpre
      constructor
      · intro hnone
        refine ⟨?_, rfl⟩
        rw [adbGet, hdec]
        simp only [hentry, hval, hsplit, hbad.1 hnone]
      · intro d hd hdlen
        refine ⟨?_, rfl⟩
        rw [adbGet, hdec]
        simp only [hentry, hval, hsplit, hbad.2 d hd hdlen]

/-- Witness for C5: a database holding one ADB key with position 0, a good
digest at node 1 and nothing at node 2: a required list `[1]` succeeds with
the stored digest as proof data, and a required list `[1, 2]` fails with
`MissingData 2`. -/
theorem adb_get_contract_witness :
    adbGet (fun _ _ => [1]) [(KEY_NAMESPACE_BYTE :: [107],
        { value := adbValueSerialize { value := [118], position := 0 }, visible_at := 0,
          updated_at := 0 }),
      (POS_NAMESPACE_BYTE :: be8 1,
        { value := List.replicate 32 7, visible_at := 0, updated_at := 0 })]
      (b64Encode [107]) 3 =
      .ok { value := [118], position := 0,
            proof_data := concatDigests [(KEY_NAMESPACE_BYTE :: [107],
              { value := adbValueSerialize { value := [118], position := 0 }, visible_at := 0,
                updated_at := 0 }),
              (POS_NAMESPACE_BYTE :: be8 1,
                { value := List.replicate 32 7, visible_at := 0, updated_at := 0 })] [1] }
    ∧ adbGet (fun _ _ => [1, 2]) [(KEY_NAMESPACE_BYTE :: [107],
        { value := adbValueSerialize { value := [118], position := 0 }, visible_at := 0,
          updated_at := 0 }),
      (POS_NAMESPACE_BYTE :: be8 1,
        { value := List.replicate 32 7, visible_at := 0, updated_at := 0 })]
      (b64Encode [107]) 3 = .error (.MissingData 2) := by
  constructor
  · have h := (adb_get_contract (fun _ _ => [1]) [(KEY_NAMESPACE_BYTE :: [107],
        { value := adbValueSerialize { value := [118], position := 0 }, visible_at := 0,
          updated_at := 0 }),
      (POS_NAMESPACE_BYTE :: be8 1,
        { value := List.replicate 32 7, visible_at := 0, updated_at := 0 })]
      (b64Encode [107]) [107] 3 (by decide)).2
      { value := adbValueSerialize { value := [118], position := 0 }, visible_at := 0,
        updated_at := 0 }
      { value := [118], position := 0 } (by decide) (by decide)
    exact h.1 (by decide)
  · have h := (adb_get_contract (fun _ _ => [1, 2]) [(KEY_NAMESPACE_BYTE :: [107],
        { value := adbValueSerialize { value := [118], position := 0 }, visible_at := 0,
          updated_at := 0 }),
      (POS_NAMESPACE_BYTE :: be8 1,
        { value := List.replicate 32 7, visible_at := 0, updated_at := 0 })]
      (b64Encode [107]) [107] 3 (by decide)).2
      { value := adbValueSerialize { value := [118], position := 0 }, visible_at := 0,
        updated_at := 0 }
      { value := [118], position := 0 } (by decide) (by decide)
    exact ((h.2 [1] 2 [] rfl (by decide)).1 (by decide)).1

/-- Claim C8 (confirmed). ADB identity round-trip: `set_key(k, p, v)` stores a
key-namespace entry with `visible_at = 0` (immediately visible — the
consistency delay never applies) whose value is the serialized
`{ value, position }` record, and a following `get(k, p+1)` with every
required digest present and 32 bytes long returns `value = v`, `position = p`
and a `proof_data` whose length is a multiple of 32. Stated for every
required-nodes function. -/
theorem adb_set_key_get_roundtrip (nodesRequired : Nat → Nat → List Nat) (db : DB)
    (k v : Bytes) (p nowMillis : Nat)
    (hk : ∀ b ∈ k, b < 256) (hp : p < U64_MOD) (hv : v.length < U64_MOD) :
    (adbSetKey db (b64Encode k) p v nowMillis).1 = .ok ()
    ∧ dbGet (adbSetKey db (b64Encode k) p v nowMillis).2 (KEY_NAMESPACE_BYTE :: k) =
        some { value := adbValueSerialize { value := v, position := p }, visible_at := 0,
               updated_at := nowMillis / 1000 % U64_MOD }
    ∧ ((∀ i ∈ nodesRequired (p + 1) p,
          goodDigest (adbSetKey db (b64Encode k) p v nowMillis).2 i = true) →
        ∃ pd, adbGet nodesRequired (adbSetKey db (b64Encode k) p v nowMillis).2
            (b64Encode k) (p + 1) = .ok { value := v, position := p, proof_data := pd }
          ∧ pd.length % 32 = 0) := by
  have hdec : b64Decode (b64Encode k) = some k := b64_roundtrip k hk
  have hset : adbSetKey db (b64Encode k) p v nowMillis =
      (.ok (), dbPut db (KEY_NAMESPACE_BYTE :: k)
        (entryNew (adbValueSerialize { value := v, position := p }) nowMillis)) := by
    rw [adbSetKey, hdec]
  refine ⟨by rw [hset], ?_, ?_⟩
  · rw [hset]
    exact dbGet_dbPut_self db _ _
  · intro hgood
    have hentry : dbGet (adbSetKey db (b64Encode k) p v nowMillis).2
        (KEY_NAMESPACE_BYTE :: k) =
        some (entryNew (adbValueSerialize { value := v, position := p }) nowMillis) := by
      rw [hset]
      exact dbGet_dbPut_self db _ _
    have hval : adbValueDeserialize
        (entryNew (adbValueSerialize { value := v, position := p }) nowMillis).value =
        some { value := v, position := p } := by
      rw [entryNew]
      exact adbValue_roundtrip _ hv hp
    refine ⟨concatDigests (adbSetKey db (b64Encode k) p v nowMillis).2
      (nodesRequired (p + 1) p), ?_, ?_⟩
    · rw [adbGet, hdec]
      simp only [hentry, hval, adbGetLoop_all_good _ _ hgood]
    · rw [concatDigests_length _ _ hgood]
      omega

/-- Witness for C8: `set_key` of value `[118]` at position 0 into an empty
store, followed by `get` with MMR size 1 and no required nodes. -/
theorem adb_set_key_get_roundtrip_witness :
    (adbSetKey [] (b64Encode [107]) 0 [118] 1234).1 = .ok ()
    ∧ dbGet (adbSetKey [] (b64Encode [107]) 0 [118] 1234).2 (KEY_NAMESPACE_BYTE :: [107]) =
        some { value := adbValueSerialize { value := [118], position := 0 }, visible_at := 0,
               updated_at := 1234 / 1000 % U64_MOD }
    ∧ ((∀ i ∈ (fun (_ _ : Nat) => ([] : List Nat)) (0 + 1) 0,
          goodDigest (adbSetKey [] (b64Encode [107]) 0 [118] 1234).2 i = true) →
        ∃ pd, adbGet (fun _ _ => []) (adbSetKey [] (b64Encode [107]) 0 [118] 1234).2
            (b64Encode [107]) (0 + 1) = .ok { value := [118], position := 0, proof_data := pd }
          ∧ pd.length % 32 = 0) :=
  adb_set_key_get_roundtrip (fun _ _ => []) [] [107] [118] 0 1234
    (by decide) (by decide) (by decide)

/-- Claim C10 (confirmed). ADB `set_key` performs no key-size or value-size
validation: whenever the base64 `key` parameter decodes, the handler succeeds
(HTTP 200) for a decoded key of any length and a value of any size — the only
cap is the server-wide 21 MiB request-body layer, which exceeds the KV
handler's 20 MiB value limit — and the only error `set_key` can ever produce
is `InvalidParameter`, never `KeyTooLarge` or `ValueTooLarge`. -/
theorem adb_set_key_no_size_validation (db : DB) (keyB64 k : Bytes) (p : Nat) (v : Bytes)
    (nowMillis : Nat) (hdec : b64Decode keyB64 = some k) :
    adbSetKey db keyB64 p v nowMillis =
      (.ok (), dbPut db (KEY_NAMESPACE_BYTE :: k)
        (entryNew (adbValueSerialize { value := v, position := p }) nowMillis))
    ∧ (∀ (anyKey : Bytes) (e : StoreError), (adbSetKey db anyKey p v nowMillis).1 = .error e →
        e = .InvalidParameter)
    ∧ MAX_VALUE_SIZE < MAX_REQUEST_BODY_SIZE := by
  refine ⟨by rw [adbSetKey, hdec], ?_, by decide⟩
  intro anyKey e he
  rw [adbSetKey] at he
  cases hd : b64Decode anyKey with
  | none =>
    rw [hd] at he
    simpa using he.symm
  | some k2 =>
    rw [hd] at he
    exact absurd he (by simp)

/-- Witness for C10: a 513-byte decoded key (over the KV limit of 512) and a
value of 20 MiB + 1 bytes (over the KV limit) are both accepted. -/
theorem adb_set_key_no_size_validation_witness :
    MAX_KEY_SIZE < (List.replicate 513 97).length
    ∧ MAX_VALUE_SIZE < (List.replicate (MAX_VALUE_SIZE + 1) 0).length
    ∧ adbSetKey [] (b64Encode (List.replicate 513 97)) 5 (List.replicate (MAX_VALUE_SIZE + 1) 0)
        9 =
      (.ok (), dbPut [] (KEY_NAMESPACE_BYTE :: List.replicate 513 97)
        (entryNew (adbValueSerialize
          { value := List.replicate (MAX_VALUE_SIZE + 1) 0, position := 5 }) 9)) :=
  ⟨by rw [List.length_replicate]; decide,
   by rw [List.length_replicate]; omega,
   (adb_set_key_no_size_validation [] (b64Encode (List.replicate 513 97))
      (List.replicate 513 97) 5 (List.replicate (MAX_VALUE_SIZE + 1) 0) 9
      (b64_roundtrip _ (fun b hb => by
        rw [List.eq_of_mem_replicate hb]
        omega))).1⟩

/-- Claim C6 (corrected), counterexample: with `public_read` disabled and a
request to `GET /stream/{name}` carrying only a valid `token` query parameter,
the auth middleware admits the request, but the `subscribe` handler's own
check — which reads the `auth_token` query parameter, not `token` — rejects it
with 401, so the WebSocket upgrade does not proceed. -/
theorem stream_token_param_counterexample :
    authMiddlewareAdmits "secret" false true none [("token", "secret")] = true
    ∧ streamSubscribeStatus "secret" false none [("token", "secret")] = 401 := by
  constructor
  · rfl
  · rfl

/-- Claim C6 (corrected), amended: the middleware admits exactly on a matching
bearer header, a matching first `token` query parameter, or public-read GET;
but `GET /stream/{name}` passes through a second gate inside `subscribe`
(public access, or bearer header, or — only when no Authorization header is
present — the `auth_token` query parameter), and the upgrade (101) happens
exactly when both gates pass; otherwise the response is 401. -/
theorem auth_gate_two_stage (tok : String) (pub : Bool) (isGet : Bool) (hdr : Option String)
    (qp : List (String × String)) :
    (authMiddlewareAdmits tok pub isGet hdr qp = true ↔
      (∃ h, hdr = some h ∧ bearerOk tok h = true)
      ∨ findParam qp "token" = some tok
      ∨ (pub = true ∧ isGet = true))
    ∧ (streamSubscribeStatus tok pub hdr qp = 101 ↔
        authMiddlewareAdmits tok pub true hdr qp = true
        ∧ subscribeAdmits tok pub hdr (findParam qp "auth_token") = true)
    ∧ (streamSubscribeStatus tok pub hdr qp = 101 ∨
        streamSubscribeStatus tok pub hdr qp = 401) := by
  refine ⟨?_, ?_, ?_⟩
  · simp only [authMiddlewareAdmits]
    cases hdr with
    | none =>
      cases hfp : findParam qp "token" with
      | none => simp [hfp]
      | some t => simp [hfp, beq_iff_eq]
    | some h =>
      cases hb : bearerOk tok h with
      | true => simp [hb]
      | false =>
        cases hfp : findParam qp "token" with
        | none => simp [hb, hfp]
        | some t => simp [hb, hfp, beq_iff_eq]
  · rw [streamSubscribeStatus]
    by_cases hm : authMiddlewareAdmits tok pub true hdr qp = true
    · rw [if_pos hm]
      by_cases hs : subscribeAdmits tok pub hdr (findParam qp "auth_token") = true
      · rw [if_pos hs]
        simp [hm, hs]
      · rw [if_neg hs]
        simp [hs]
    · rw [if_neg hm]
      simp [hm]
  · rw [streamSubscribeStatus]
    by_cases hm : authMiddlewareAdmits tok pub true hdr qp = true
    · rw [if_pos hm]
      by_cases hs : subscribeAdmits tok pub hdr (findParam qp "auth_token") = true
      · rw [if_pos hs]
        exact Or.inl rfl
      · rw [if_neg hs]
        exact Or.inr rfl
    · rw [if_neg hm]
      exact Or.inr rfl

/-- Claim C7 (code_bug). `publish` never examines the topic name's length: a
513-byte name with a small body is answered 200, although the repository's own
`test_limits_fail` expects 413 for it and `stream::Error::NameTooLarge`
(mapped to 413) exists for exactly that purpose but is never constructed. The
body-size half of the claim does hold: an oversized body is rejected 413 and a
size-valid publish is 200 even with no channel and no subscribers. -/
theorem publish_name_length_unchecked :
    (publishResponse [] (List.replicate 513 97) [104, 105]).1 = 200
    ∧ 512 < (List.replicate 513 97).length
    ∧ (publishResponse [] (List.replicate 513 97) (List.replicate (MAX_MESSAGE_SIZE + 1) 0)).1 =
        413
    ∧ (publishResponse [] (List.replicate 513 97) [104, 105]).2 = [List.replicate 513 97] := by
  refine ⟨?_, by rw [List.length_replicate]; decide, ?_, ?_⟩
  · rw [publishResponse, if_neg (by decide)]
  · rw [publishResponse, if_pos (by rw [List.length_replicate]; decide)]
  · rfl

/-- Claim C9 (code_bug). A `set_node_digest` write for position 128 stores the
raw key `[0x01 | 128_u64_be]`, whose final byte 0x80 makes it invalid UTF-8;
the entry is immediately visible, and a whole-KV `query` reaching it panics in
`String::from_utf8(key.into_vec()).unwrap()` instead of emitting the raw key
and returning normally. -/
theorem kv_query_digest_key_panic :
    (adbSetNodeDigest [] 128 (List.replicate 32 1) 0).1 = .ok ()
    ∧ isValidUtf8 (POS_NAMESPACE_BYTE :: be8 128) = false
    ∧ kvQuery (adbSetNodeDigest [] 128 (List.replicate 32 1) 0).2 5 none none none =
        .panicked := by
  exact ⟨rfl, by decide, rfl⟩

end Exoware
